import Mathlib

/-!
Verification of the persistent cache subsystem of the ai-hedge-fund repository
(`src/data/cache.py`).  The cache stores, per ticker symbol, five record
collections (prices, financial metrics, line items, insider trades, company
news), merging new batches into four of them by a per-collection identity
field and indexing line items by a composite query key.  Records are Python
dicts; the in-memory store is a dict from ticker to a record list (line items:
to a dict from composite key to a record list); every write also mirrors the
partition to disk after ensuring the ticker directory exists.

The embedding below models records as association lists, Python dicts as
association lists with replace-or-append update, the filesystem as a set of
directories plus a file map, and fallible dict subscripting (`item[key]`,
which raises `KeyError`) with the `Except` monad.
-/

set_option synthInstance.maxSize 2000

namespace HedgeFundCache

/-- A record: a Python dict from field names to (opaque, here string) values. -/
abbrev Record := List (String × String)

/-- `item.get(key)`-style lookup on a record: first binding wins. -/
def dictGet (item : Record) (key : String) : Option String :=
  match item with
  | [] => none
  | (k, v) :: rest => if k == key then some v else dictGet rest key

/-- `item[key]`: raises `KeyError` when the field is missing. -/
def getKey (item : Record) (keyField : String) : Except String String :=
  match dictGet item keyField with
  | some v => Except.ok v
  | none => Except.error "KeyError"

/-- `\x7bitem[key_field] for item in existing\x7d`: the keys of the existing
records, failing on the first record lacking the field. -/
def existingKeys : List Record → String → Except String (List String)
  | [], _ => Except.ok []
  | item :: rest, k =>
    match getKey item k with
    | Except.error e => Except.error e
    | Except.ok v =>
      match existingKeys rest k with
      | Except.error e => Except.error e
      | Except.ok vs => Except.ok (v :: vs)

/-- `[item for item in new_data if item[key_field] not in existing_keys]`:
keeps the incoming records whose key is not among `ks`, failing on a record
lacking the field. -/
def filterNewItems (ks : List String) (k : String) : List Record → Except String (List Record)
  | [] => Except.ok []
  | item :: rest =>
    match getKey item k with
    | Except.error e => Except.error e
    | Except.ok v =>
      match filterNewItems ks k rest with
      | Except.error e => Except.error e
      | Except.ok tail =>
        Except.ok (if ks.contains v then tail else item :: tail)

/-- `Cache._merge_data(existing, new_data, key_field)`.  `existing` is the
current dict entry (`None` when the ticker was never stored); Python's
falsiness check `if not existing` treats `None` and `[]` alike. -/
def mergeData (existing : Option (List Record)) (newData : List Record)
    (keyField : String) : Except String (List Record) :=
  match existing with
  | none => Except.ok newData
  | some ex =>
    if ex.isEmpty then Except.ok newData
    else
      match existingKeys ex keyField with
      | Except.error e => Except.error e
      | Except.ok ks =>
        match filterNewItems ks keyField newData with
        | Except.error e => Except.error e
        | Except.ok adds => Except.ok (ex ++ adds)

/-- Python-dict lookup for the per-ticker maps. -/
def assocGet {α : Type} (m : List (String × α)) (k : String) : Option α :=
  match m with
  | [] => none
  | (k', v) :: rest => if k' == k then some v else assocGet rest k

/-- Python-dict update `m[k] = v`: replaces the binding in place when the key
exists, otherwise appends (dicts preserve insertion order). -/
def assocSet {α : Type} (m : List (String × α)) (k : String) (v : α) :
    List (String × α) :=
  match m with
  | [] => [(k, v)]
  | (k', v') :: rest =>
    if k' == k then (k, v) :: rest else (k', v') :: assocSet rest k v

/-- Content of one on-disk JSON file: four collections store a record list,
`line_items.json` stores a map from composite key to a record list. -/
inductive FileData where
  | recs : List Record → FileData
  | table : List (String × List Record) → FileData
deriving DecidableEq, Repr

/-- The filesystem state the cache touches: whether the base directory
(`./data`) exists, which per-ticker subdirectories exist, and the JSON files,
keyed by (ticker, file name). -/
structure FS where
  baseDirExists : Bool
  tickerDirs : List String
  files : List (String × List (String × FileData))
deriving DecidableEq, Repr

/-- Lookup of a file's content, keyed by ticker then file name. -/
def FS.file (fs : FS) (ticker fname : String) : Option FileData :=
  match assocGet fs.files ticker with
  | none => none
  | some tf => assocGet tf fname

/-- `Cache._ensure_ticker_dir`: `mkdir(parents=True, exist_ok=True)` creates
the base directory and the ticker directory when absent. -/
def ensureTickerDir (fs : FS) (ticker : String) : FS :=
  { fs with
    baseDirExists := true
    tickerDirs :=
      if fs.tickerDirs.contains ticker then fs.tickerDirs
      else fs.tickerDirs ++ [ticker] }

/-- `Cache._save_file`: writes the document for (ticker, fname). -/
def saveFile (fs : FS) (ticker fname : String) (d : FileData) : FS :=
  { fs with
    files :=
      assocSet fs.files ticker
        (assocSet ((assocGet fs.files ticker).getD []) fname d) }

/-- The in-memory state of `Cache`: five per-ticker collections. -/
structure Cache where
  pricesCache : List (String × List Record)
  financialMetricsCache : List (String × List Record)
  lineItemsCache : List (String × List (String × List Record))
  insiderTradesCache : List (String × List Record)
  companyNewsCache : List (String × List Record)
deriving DecidableEq, Repr

/-- The five empty dicts `Cache.__init__` starts from before loading disk. -/
def emptyCache : Cache := ⟨[], [], [], [], []⟩

/-- Loading one ticker directory's five files into the in-memory caches
(the `_load_file` calls of `_load_cache`); a missing file leaves the
collection untouched. -/
def loadTicker (fs : FS) (ticker : String) (c : Cache) : Cache :=
  let c :=
    match fs.file ticker "prices.json" with
    | some (FileData.recs l) => { c with pricesCache := assocSet c.pricesCache ticker l }
    | _ => c
  let c :=
    match fs.file ticker "financial_metrics.json" with
    | some (FileData.recs l) =>
      { c with financialMetricsCache := assocSet c.financialMetricsCache ticker l }
    | _ => c
  let c :=
    match fs.file ticker "line_items.json" with
    | some (FileData.table t) =>
      { c with lineItemsCache := assocSet c.lineItemsCache ticker t }
    | _ => c
  let c :=
    match fs.file ticker "insider_trades.json" with
    | some (FileData.recs l) =>
      { c with insiderTradesCache := assocSet c.insiderTradesCache ticker l }
    | _ => c
  match fs.file ticker "company_news.json" with
  | some (FileData.recs l) =>
    { c with companyNewsCache := assocSet c.companyNewsCache ticker l }
  | _ => c

/-- `Cache._load_cache`: when the base directory does not exist it is created
and loading stops; otherwise every ticker directory is scanned. -/
def loadCache (fs : FS) (c : Cache) : Cache × FS :=
  if fs.baseDirExists then
    (fs.tickerDirs.foldl (fun acc t => loadTicker fs t acc) c, fs)
  else
    (c, { fs with baseDirExists := true })

/-- `Cache.__init__`: empty in-memory dicts, then `_load_cache`. -/
def Cache.init (fs : FS) : Cache × FS := loadCache fs emptyCache

/-- A filesystem with nothing in it (no `./data` directory). -/
def freshFS : FS := ⟨false, [], []⟩

/-- A cache constructed over an empty filesystem. -/
def freshState : Cache × FS := Cache.init freshFS

/-- `Cache.get_prices`. -/
def Cache.get_prices (c : Cache) (ticker : String) : Option (List Record) :=
  assocGet c.pricesCache ticker

/-- `Cache.set_prices`: merge by `"time"`, store, ensure the ticker
directory, save `prices.json`. -/
def Cache.set_prices (c : Cache) (fs : FS) (ticker : String)
    (data : List Record) : Except String (Cache × FS) :=
  match mergeData (assocGet c.pricesCache ticker) data "time" with
  | Except.error e => Except.error e
  | Except.ok merged =>
    let c' := { c with pricesCache := assocSet c.pricesCache ticker merged }
    let fs' := ensureTickerDir fs ticker
    Except.ok (c', saveFile fs' ticker "prices.json" (FileData.recs merged))

/-- `Cache.get_financial_metrics`. -/
def Cache.get_financial_metrics (c : Cache) (ticker : String) :
    Option (List Record) :=
  assocGet c.financialMetricsCache ticker

/-- `Cache.set_financial_metrics`: merge by `"report_period"`. -/
def Cache.set_financial_metrics (c : Cache) (fs : FS) (ticker : String)
    (data : List Record) : Except String (Cache × FS) :=
  match mergeData (assocGet c.financialMetricsCache ticker) data "report_period" with
  | Except.error e => Except.error e
  | Except.ok merged =>
    let c' := { c with financialMetricsCache := assocSet c.financialMetricsCache ticker merged }
    let fs' := ensureTickerDir fs ticker
    Except.ok (c', saveFile fs' ticker "financial_metrics.json" (FileData.recs merged))

/-- `Cache.get_insider_trades`. -/
def Cache.get_insider_trades (c : Cache) (ticker : String) :
    Option (List Record) :=
  assocGet c.insiderTradesCache ticker

/-- `Cache.set_insider_trades`: merge by `"filing_date"`. -/
def Cache.set_insider_trades (c : Cache) (fs : FS) (ticker : String)
    (data : List Record) : Except String (Cache × FS) :=
  match mergeData (assocGet c.insiderTradesCache ticker) data "filing_date" with
  | Except.error e => Except.error e
  | Except.ok merged =>
    let c' := { c with insiderTradesCache := assocSet c.insiderTradesCache ticker merged }
    let fs' := ensureTickerDir fs ticker
    Except.ok (c', saveFile fs' ticker "insider_trades.json" (FileData.recs merged))

/-- `Cache.get_company_news`. -/
def Cache.get_company_news (c : Cache) (ticker : String) :
    Option (List Record) :=
  assocGet c.companyNewsCache ticker

/-- `Cache.set_company_news`: merge by `"date"`. -/
def Cache.set_company_news (c : Cache) (fs : FS) (ticker : String)
    (data : List Record) : Except String (Cache × FS) :=
  match mergeData (assocGet c.companyNewsCache ticker) data "date" with
  | Except.error e => Except.error e
  | Except.ok merged =>
    let c' := { c with companyNewsCache := assocSet c.companyNewsCache ticker merged }
    let fs' := ensureTickerDir fs ticker
    Except.ok (c', saveFile fs' ticker "company_news.json" (FileData.recs merged))

/-- Strict code-point comparison of characters (Python compares strings by
Unicode code points). -/
def charLt (a b : Char) : Bool :=
  decide (a.toNat < b.toNat)

/-- Lexicographic (non-strict) comparison of character lists by code point. -/
def lexLe : List Char → List Char → Bool
  | [], _ => true
  | _ :: _, [] => false
  | a :: as, b :: bs =>
    if charLt a b then true
    else if charLt b a then false
    else lexLe as bs

/-- Python string comparison `a <= b`: lexicographic by code point. -/
def strLe (a b : String) : Bool :=
  lexLe a.data b.data

/-- Python `sorted` on strings: the unique ascending reordering under the
code-point lexicographic order (modelled by insertion sort). -/
def pySorted (l : List String) : List String :=
  List.insertionSort (fun a b => strLe a b = true) l

/-- The composite query key
`f"\x7bend_date\x7d_\x7bperiod\x7d_\x7b','.join(sorted(line_items))\x7d"`. -/
def queryKey (lineItems : List String) (endDate period : String) : String :=
  endDate ++ "_" ++ period ++ "_" ++ String.intercalate "," (pySorted lineItems)

/-- `Cache.get_line_items`: `None` when the ticker's line-items dict is
missing or empty, otherwise an exact composite-key lookup. -/
def Cache.get_line_items (c : Cache) (ticker : String) (lineItems : List String)
    (endDate : String) (period : String := "ttm") : Option (List Record) :=
  let tickerData := (assocGet c.lineItemsCache ticker).getD []
  if tickerData.isEmpty then none
  else assocGet tickerData (queryKey lineItems endDate period)

/-- `Cache.set_line_items`: stores `data` verbatim under the composite key
(initialising the ticker's dict when needed), then persists. -/
def Cache.set_line_items (c : Cache) (fs : FS) (ticker : String)
    (lineItems : List String) (endDate period : String) (data : List Record) :
    Cache × FS :=
  let qk := queryKey lineItems endDate period
  let tickerData := (assocGet c.lineItemsCache ticker).getD []
  let tickerData' := assocSet tickerData qk data
  let c' := { c with lineItemsCache := assocSet c.lineItemsCache ticker tickerData' }
  let fs' := ensureTickerDir fs ticker
  (c', saveFile fs' ticker "line_items.json" (FileData.table tickerData'))

/-- One public cache operation (the `get_*` methods read state without
mutating it; the `set_*` methods are the writes). -/
inductive Op where
  | getPrices (t : String)
  | getFinancialMetrics (t : String)
  | getInsiderTrades (t : String)
  | getCompanyNews (t : String)
  | getLineItems (t : String) (fields : List String) (endDate period : String)
  | setPrices (t : String) (d : List Record)
  | setFinancialMetrics (t : String) (d : List Record)
  | setInsiderTrades (t : String) (d : List Record)
  | setCompanyNews (t : String) (d : List Record)
  | setLineItems (t : String) (fields : List String) (endDate period : String)
      (d : List Record)
deriving DecidableEq, Repr

/-- Effect of one operation on the cache-and-filesystem state; a `KeyError`
escaping `_merge_data` surfaces as `Except.error`. -/
def applyOp (s : Cache × FS) : Op → Except String (Cache × FS)
  | Op.getPrices _ => Except.ok s
  | Op.getFinancialMetrics _ => Except.ok s
  | Op.getInsiderTrades _ => Except.ok s
  | Op.getCompanyNews _ => Except.ok s
  | Op.getLineItems _ _ _ _ => Except.ok s
  | Op.setPrices t d => s.1.set_prices s.2 t d
  | Op.setFinancialMetrics t d => s.1.set_financial_metrics s.2 t d
  | Op.setInsiderTrades t d => s.1.set_insider_trades s.2 t d
  | Op.setCompanyNews t d => s.1.set_company_news s.2 t d
  | Op.setLineItems t f e p d => Except.ok (s.1.set_line_items s.2 t f e p d)

/-- Running one operation: a raised `KeyError` propagates to the caller
before any state is reassigned, so the state is left unchanged. -/
def step (s : Cache × FS) (op : Op) : Cache × FS :=
  match applyOp s op with
  | Except.ok s' => s'
  | Except.error _ => s

/-- Running a sequence of operations. -/
def run (s : Cache × FS) (ops : List Op) : Cache × FS := ops.foldl step s

/-! ## Derived notions used in the statements -/

/-- Every record of `l` carries the identity field `k`. -/
def carries (l : List Record) (k : String) : Prop :=
  ∀ r ∈ l, (dictGet r k).isSome

instance (l : List Record) (k : String) : Decidable (carries l k) := by
  unfold carries
  infer_instance

/-- The identity-field values present in the existing records. -/
def existingKeySet (ex : List Record) (k : String) : List String :=
  ex.filterMap (fun r => dictGet r k)

/-- The incoming records admitted by the merge: those whose identity value is
absent from the original existing records' key set. -/
def admittedRecords (ex d : List Record) (k : String) : List Record :=
  d.filter (fun r =>
    !((dictGet r k).any (fun v => (existingKeySet ex k).contains v)))

/-- No two records of `l` agree on the identity field `k`. -/
def keysNodup (l : List Record) (k : String) : Prop :=
  (l.map (fun r => dictGet r k)).Nodup

instance (l : List Record) (k : String) : Decidable (keysNodup l k) := by
  unfold keysNodup
  infer_instance

/-- A well-formed batch for a merging write: every record carries the
collection's identity field and no two records of the batch share a value
of it.  Reads and line-item writes are unconstrained. -/
def batchOk : Op → Prop
  | Op.setPrices _ d => carries d "time" ∧ keysNodup d "time"
  | Op.setFinancialMetrics _ d => carries d "report_period" ∧ keysNodup d "report_period"
  | Op.setInsiderTrades _ d => carries d "filing_date" ∧ keysNodup d "filing_date"
  | Op.setCompanyNews _ d => carries d "date" ∧ keysNodup d "date"
  | _ => True

instance (op : Op) : Decidable (batchOk op) := by
  cases op <;> (unfold batchOk; infer_instance)

/-- Every record of a merging write's batch carries the collection's
identity field (no duplicate-freeness required). -/
def opCarries : Op → Prop
  | Op.setPrices _ d => carries d "time"
  | Op.setFinancialMetrics _ d => carries d "report_period"
  | Op.setInsiderTrades _ d => carries d "filing_date"
  | Op.setCompanyNews _ d => carries d "date"
  | _ => True

instance (op : Op) : Decidable (opCarries op) := by
  cases op <;> (unfold opCarries; infer_instance)

/-- Whether the operation is a write (`set_*`) touching ticker `t`. -/
def Op.setsTicker (t : String) : Op → Bool
  | Op.setPrices t' _ => t' == t
  | Op.setFinancialMetrics t' _ => t' == t
  | Op.setInsiderTrades t' _ => t' == t
  | Op.setCompanyNews t' _ => t' == t
  | Op.setLineItems t' _ _ _ _ => t' == t
  | _ => false

/-- Whether the operation is `set_prices` on ticker `t`. -/
def opSetsPrices (t : String) : Op → Bool
  | Op.setPrices t' _ => t' == t
  | _ => false

/-- Whether the operation is `set_financial_metrics` on ticker `t`. -/
def opSetsFinancialMetrics (t : String) : Op → Bool
  | Op.setFinancialMetrics t' _ => t' == t
  | _ => false

/-- Whether the operation is `set_insider_trades` on ticker `t`. -/
def opSetsInsiderTrades (t : String) : Op → Bool
  | Op.setInsiderTrades t' _ => t' == t
  | _ => false

/-- Whether the operation is `set_company_news` on ticker `t`. -/
def opSetsCompanyNews (t : String) : Op → Bool
  | Op.setCompanyNews t' _ => t' == t
  | _ => false

/-- Whether the operation is `set_line_items` on ticker `t`. -/
def opSetsLineItems (t : String) : Op → Bool
  | Op.setLineItems t' _ _ _ _ => t' == t
  | _ => false

/-- Every ticker's stored collection in `m` has pairwise-distinct identity
values and every stored record carries the field. -/
def collOk (m : List (String × List Record)) (k : String) : Prop :=
  ∀ t, keysNodup ((assocGet m t).getD []) k ∧ carries ((assocGet m t).getD []) k

/-- The identity-uniqueness invariant over the four merging collections. -/
def cacheOk (c : Cache) : Prop :=
  collOk c.pricesCache "time" ∧ collOk c.financialMetricsCache "report_period" ∧
    collOk c.insiderTradesCache "filing_date" ∧ collOk c.companyNewsCache "date"

/-- Every stored record of every merging collection carries its identity
field. -/
def cacheCarries (c : Cache) : Prop :=
  (∀ t, carries ((assocGet c.pricesCache t).getD []) "time") ∧
    (∀ t, carries ((assocGet c.financialMetricsCache t).getD []) "report_period") ∧
    (∀ t, carries ((assocGet c.insiderTradesCache t).getD []) "filing_date") ∧
    (∀ t, carries ((assocGet c.companyNewsCache t).getD []) "date")

/-! ## Association-list lemmas -/

theorem assocGet_assocSet_self {α : Type} (m : List (String × α)) (k : String) (v : α) :
    assocGet (assocSet m k v) k = some v := by
  induction m with
  | nil => simp [assocGet, assocSet]
  | cons p rest ih =>
    obtain ⟨k', v'⟩ := p
    by_cases h : k' = k
    · subst h
      simp [assocGet, assocSet]
    · simp [assocGet, assocSet, beq_iff_eq, h, ih]

theorem assocGet_assocSet_ne {α : Type} (m : List (String × α)) (k k' : String) (v : α)
    (h : k' ≠ k) : assocGet (assocSet m k v) k' = assocGet m k' := by
  induction m with
  | nil => simp [assocGet, assocSet, beq_iff_eq, Ne.symm h]
  | cons p rest ih =>
    obtain ⟨a, b⟩ := p
    by_cases ha : a = k
    · subst ha
      simp [assocGet, assocSet, beq_iff_eq, Ne.symm h]
    · simp [assocGet, assocSet, beq_iff_eq, ha, ih]

/-! ## Merge-engine lemmas -/

theorem getKey_ok {r : Record} {k v : String} (h : dictGet r k = some v) :
    getKey r k = Except.ok v := by
  simp [getKey, h]

theorem getKey_missing {r : Record} {k : String} (h : dictGet r k = none) :
    getKey r k = Except.error "KeyError" := by
  simp [getKey, h]

theorem existingKeys_eq {k : String} {ex : List Record} (h : carries ex k) :
    existingKeys ex k = Except.ok (existingKeySet ex k) := by
  induction ex with
  | nil => simp [existingKeys, existingKeySet]
  | cons r rest ih =>
    obtain ⟨v, hv⟩ := Option.isSome_iff_exists.mp (h r (by simp))
    have hrest : carries rest k := fun x hx => h x (by simp [hx])
    simp [existingKeys, getKey_ok hv, ih hrest, existingKeySet,
      List.filterMap_cons, hv]

theorem filterNewItems_eq {k : String} {d : List Record} (ks : List String)
    (h : carries d k) :
    filterNewItems ks k d =
      Except.ok (d.filter (fun r => !((dictGet r k).any (fun v => ks.contains v)))) := by
  induction d with
  | nil => simp [filterNewItems]
  | cons r rest ih =>
    obtain ⟨v, hv⟩ := Option.isSome_iff_exists.mp (h r (by simp))
    have hrest : carries rest k := fun x hx => h x (by simp [hx])
    by_cases hc : ks.contains v
    · simp [filterNewItems, getKey_ok hv, ih hrest, List.filter_cons, hv, hc]
    · simp [filterNewItems, getKey_ok hv, ih hrest, List.filter_cons, hv, hc]

theorem admittedRecords_nil (d : List Record) (k : String) :
    admittedRecords [] d k = d := by
  unfold admittedRecords existingKeySet
  rw [List.filter_eq_self]
  intro r _
  cases h : dictGet r k <;> simp [h]

theorem mergeData_eq {k : String} {ex d : List Record} (hex : carries ex k)
    (hd : carries d k) :
    mergeData (some ex) d k = Except.ok (ex ++ admittedRecords ex d k) := by
  cases ex with
  | nil => simp [mergeData, admittedRecords_nil]
  | cons r rest =>
    simp [mergeData, existingKeys_eq hex,
      filterNewItems_eq (existingKeySet (r :: rest) k) hd, admittedRecords]

theorem filterNewItems_error {k : String} {d : List Record} {r : Record}
    (ks : List String) (hr : r ∈ d) (hmiss : dictGet r k = none) :
    ∃ e, filterNewItems ks k d = Except.error e := by
  induction d with
  | nil => cases hr
  | cons a rest ih =>
    rcases List.mem_cons.mp hr with h | h
    · subst h
      exact ⟨"KeyError", by simp [filterNewItems, getKey_missing hmiss]⟩
    · cases hk : getKey a k with
      | error e => exact ⟨e, by simp [filterNewItems, hk]⟩
      | ok v =>
        obtain ⟨e, he⟩ := ih h
        exact ⟨e, by simp [filterNewItems, hk, he]⟩

theorem mergeData_error {k : String} {ex d : List Record} {r : Record}
    (hne : ex ≠ []) (hr : r ∈ d) (hmiss : dictGet r k = none) :
    ∃ e, mergeData (some ex) d k = Except.error e := by
  have hemp : ex.isEmpty = false := by
    cases ex with
    | nil => exact absurd rfl hne
    | cons a l => rfl
  cases hks : existingKeys ex k with
  | error e =>
    exact ⟨e, by simp [mergeData, hemp, hks]⟩
  | ok ks =>
    obtain ⟨e, he⟩ := filterNewItems_error ks hr hmiss
    exact ⟨e, by simp [mergeData, hemp, hks, he]⟩

theorem admittedRecords_sublist (ex d : List Record) (k : String) :
    List.Sublist (admittedRecords ex d k) d :=
  List.filter_sublist d

theorem mem_existingKeySet {ex : List Record} {k v : String} :
    v ∈ existingKeySet ex k ↔ ∃ r ∈ ex, dictGet r k = some v := by
  simp [existingKeySet, List.mem_filterMap]

theorem merge_keysNodup {k : String} {ex d : List Record} (hd : carries d k)
    (hex : keysNodup ex k) (hdn : keysNodup d k) :
    keysNodup (ex ++ admittedRecords ex d k) k := by
  unfold keysNodup at *
  rw [List.map_append, List.nodup_append]
  refine ⟨hex, hdn.sublist (List.Sublist.map _ (admittedRecords_sublist ex d k)), ?_⟩
  intro x hx hx'
  obtain ⟨r, hrex, hrx⟩ := List.mem_map.mp hx
  obtain ⟨a, hamem, hax⟩ := List.mem_map.mp hx'
  obtain ⟨had, hpred⟩ := List.mem_filter.mp hamem
  obtain ⟨v, hv⟩ := Option.isSome_iff_exists.mp (hd a had)
  rw [hv] at hpred
  simp only [Option.any_some, Bool.not_eq_true'] at hpred
  have hnotin : v ∉ existingKeySet ex k := by
    simpa using hpred
  exact hnotin (mem_existingKeySet.mpr ⟨r, hrex, by rw [hrx, ← hax, hv]⟩)

theorem carries_append_admitted {k : String} {ex d : List Record}
    (hex : carries ex k) (hd : carries d k) :
    carries (ex ++ admittedRecords ex d k) k := by
  intro r hr
  rcases List.mem_append.mp hr with h | h
  · exact hex r h
  · exact hd r ((admittedRecords_sublist ex d k).mem h)

theorem mergeData_falsy {existing : Option (List Record)} {d : List Record}
    {k : String} (h : existing.getD [] = []) :
    mergeData existing d k = Except.ok d := by
  cases existing with
  | none => rfl
  | some ex =>
    simp only [Option.getD_some] at h
    subst h
    rfl

theorem existingKeySet_append (l₁ l₂ : List Record) (k : String) :
    existingKeySet (l₁ ++ l₂) k = existingKeySet l₁ k ++ existingKeySet l₂ k := by
  simp [existingKeySet]

theorem admittedRecords_eq_nil {M d : List Record} {k : String} (hd : carries d k)
    (hsub : ∀ v, (∃ r ∈ d, dictGet r k = some v) → v ∈ existingKeySet M k) :
    admittedRecords M d k = [] := by
  unfold admittedRecords
  rw [List.filter_eq_nil_iff]
  intro r hr
  obtain ⟨v, hv⟩ := Option.isSome_iff_exists.mp (hd r hr)
  have hvM := hsub v ⟨r, hr, hv⟩
  simp [hv, hvM]

theorem assocSet_isEmpty {α : Type} (m : List (String × α)) (k : String) (v : α) :
    (assocSet m k v).isEmpty = false := by
  cases m with
  | nil => rfl
  | cons p rest =>
    obtain ⟨a, b⟩ := p
    by_cases h : a = k <;> simp [assocSet, beq_iff_eq, h]

/-! ## The merge-engine claims -/

/-- C5: if the existing collection is absent (`None`) or the empty list, the
merge returns the incoming batch unchanged — the exact incoming list, with no
filtering. -/
theorem merge_cold_cache_returns_incoming (newData : List Record) (keyField : String) :
    mergeData none newData keyField = Except.ok newData ∧
      mergeData (some []) newData keyField = Except.ok newData :=
  ⟨rfl, rfl⟩

/-- C4: the merge preserves order: on any input whose records carry the
identity field, the result is the existing records as a prefix in their
original relative order, followed by exactly the admitted incoming records,
which form a sublist of the incoming batch (hence keep its relative order);
nothing is re-sorted. -/
theorem merge_order_preservation (ex d : List Record) (k : String)
    (hex : carries ex k) (hd : carries d k) :
    mergeData (some ex) d k = Except.ok (ex ++ admittedRecords ex d k) ∧
      List.Sublist (admittedRecords ex d k) d :=
  ⟨mergeData_eq hex hd, admittedRecords_sublist ex d k⟩

/-- Witness for C4 at a concrete merge. -/
theorem merge_order_preservation_witness :
    carries [[("time", "a")]] "time" ∧
      carries [[("time", "a")], [("time", "b")]] "time" ∧
      (mergeData (some [[("time", "a")]]) [[("time", "a")], [("time", "b")]] "time" =
          Except.ok ([[("time", "a")]] ++
            admittedRecords [[("time", "a")]] [[("time", "a")], [("time", "b")]] "time") ∧
        List.Sublist
          (admittedRecords [[("time", "a")]] [[("time", "a")], [("time", "b")]] "time")
          [[("time", "a")], [("time", "b")]]) :=
  ⟨by decide, by decide, merge_order_preservation _ _ _ (by decide) (by decide)⟩

/-- C2: with non-empty existing records, every incoming record is compared
against the original existing key set only: a batch whose records all share
one identity value that is new to the existing records is appended in full,
in-batch duplicates included. -/
theorem merge_duplicates_within_batch (ex d : List Record) (k v : String)
    (_hne : ex ≠ []) (hex : carries ex k)
    (hd : ∀ r ∈ d, dictGet r k = some v) (hv : v ∉ existingKeySet ex k) :
    mergeData (some ex) d k = Except.ok (ex ++ d) := by
  have hd' : carries d k := fun r hr => by rw [hd r hr]; rfl
  have ha : admittedRecords ex d k = d := by
    unfold admittedRecords
    rw [List.filter_eq_self]
    intro r hr
    rw [hd r hr]
    simp [hv]
  rw [mergeData_eq hex hd', ha]

/-- Witness for C2: two in-batch duplicates of a fresh key are both
appended. -/
theorem merge_duplicates_within_batch_witness :
    ([[("time", "a")]] : List Record) ≠ [] ∧
      carries [[("time", "a")]] "time" ∧
      (∀ r ∈ ([[("time", "b")], [("time", "b"), ("x", "1")]] : List Record),
        dictGet r "time" = some "b") ∧
      "b" ∉ existingKeySet [[("time", "a")]] "time" ∧
      mergeData (some [[("time", "a")]]) [[("time", "b")], [("time", "b"), ("x", "1")]] "time" =
        Except.ok ([[("time", "a")]] ++ [[("time", "b")], [("time", "b"), ("x", "1")]]) :=
  ⟨by decide, by decide, by decide, by decide,
    merge_duplicates_within_batch [[("time", "a")]]
      [[("time", "b")], [("time", "b"), ("x", "1")]] "time" "b"
      (by decide) (by decide) (by decide) (by decide)⟩

/-- C3: merge is idempotent: when every record involved carries the identity
field, re-merging the same batch into an already merged result changes
nothing. -/
theorem merge_idempotent (existing : Option (List Record)) (d M : List Record)
    (k : String) (hex : carries (existing.getD []) k) (hd : carries d k)
    (h : mergeData existing d k = Except.ok M) :
    mergeData (some M) d k = Except.ok M := by
  have self_nil : ∀ l : List Record, carries l k → admittedRecords l l k = [] :=
    fun l hl => admittedRecords_eq_nil hl (fun v hv => mem_existingKeySet.mpr hv)
  cases existing with
  | none =>
    injection h with h'
    subst h'
    rw [mergeData_eq hd hd, self_nil d hd, List.append_nil]
  | some ex =>
    simp only [Option.getD_some] at hex
    by_cases hemp : ex = []
    · subst hemp
      injection h with h'
      subst h'
      rw [mergeData_eq hd hd, self_nil d hd, List.append_nil]
    · rw [mergeData_eq hex hd] at h
      injection h with h'
      subst h'
      have hM : carries (ex ++ admittedRecords ex d k) k := carries_append_admitted hex hd
      have ha : admittedRecords (ex ++ admittedRecords ex d k) d k = [] := by
        apply admittedRecords_eq_nil hd
        intro v hv
        obtain ⟨r, hr, hrv⟩ := hv
        rw [mem_existingKeySet]
        by_cases hvex : v ∈ existingKeySet ex k
        · obtain ⟨r', hr', hv'⟩ := mem_existingKeySet.mp hvex
          exact ⟨r', List.mem_append_left _ hr', hv'⟩
        · have hrA : r ∈ admittedRecords ex d k := by
            unfold admittedRecords
            rw [List.mem_filter]
            refine ⟨hr, ?_⟩
            rw [hrv]
            simp [hvex]
          exact ⟨r, List.mem_append_right _ hrA, hrv⟩
      rw [mergeData_eq hM hd, ha, List.append_nil]

/-- Witness for C3 at a concrete existing collection and batch. -/
theorem merge_idempotent_witness :
    carries ((some [[("time", "a")]] : Option (List Record)).getD []) "time" ∧
      carries [[("time", "b")]] "time" ∧
      mergeData (some [[("time", "a")]]) [[("time", "b")]] "time" =
        Except.ok [[("time", "a")], [("time", "b")]] ∧
      mergeData (some [[("time", "a")], [("time", "b")]]) [[("time", "b")]] "time" =
        Except.ok [[("time", "a")], [("time", "b")]] :=
  ⟨by decide, by decide, by rfl,
    merge_idempotent (some [[("time", "a")]]) [[("time", "b")]]
      [[("time", "a")], [("time", "b")]] "time" (by decide) (by decide) (by rfl)⟩

/-- Witness for C5 (no hypotheses; instantiates the statement). -/
theorem merge_cold_cache_returns_incoming_witness :
    mergeData none [[("time", "a")]] "time" = Except.ok [[("time", "a")]] ∧
      mergeData (some []) [[("time", "a")]] "time" = Except.ok [[("time", "a")]] :=
  merge_cold_cache_returns_incoming _ _

/-! ## State-machine lemmas -/

theorem mergeData_ok_props {existing : Option (List Record)} {d merged : List Record}
    {k : String} (hexn : keysNodup (existing.getD []) k)
    (hexc : carries (existing.getD []) k)
    (hdc : carries d k) (hdn : keysNodup d k)
    (h : mergeData existing d k = Except.ok merged) :
    keysNodup merged k ∧ carries merged k := by
  cases existing with
  | none =>
    injection h with h'
    subst h'
    exact ⟨hdn, hdc⟩
  | some ex =>
    simp only [Option.getD_some] at hexn hexc
    by_cases hemp : ex = []
    · subst hemp
      injection h with h'
      subst h'
      exact ⟨hdn, hdc⟩
    · rw [mergeData_eq hexc hdc] at h
      injection h with h'
      subst h'
      exact ⟨merge_keysNodup hdc hexn hdn, carries_append_admitted hexc hdc⟩

theorem collOk_set {m : List (String × List Record)} {k t : String}
    {d merged : List Record} (hm : collOk m k) (hdc : carries d k)
    (hdn : keysNodup d k)
    (h : mergeData (assocGet m t) d k = Except.ok merged) :
    collOk (assocSet m t merged) k := by
  intro t'
  by_cases ht : t' = t
  · subst ht
    rw [assocGet_assocSet_self]
    have hprops := mergeData_ok_props (hm t').1 (hm t').2 hdc hdn h
    simpa using hprops
  · rw [assocGet_assocSet_ne _ _ _ _ ht]
    exact hm t'

theorem step_cacheOk {s : Cache × FS} {op : Op} (hs : cacheOk s.1)
    (hop : batchOk op) : cacheOk (step s op).1 := by
  obtain ⟨hp, hf, hi, hn⟩ := hs
  cases op with
  | getPrices t => exact ⟨hp, hf, hi, hn⟩
  | getFinancialMetrics t => exact ⟨hp, hf, hi, hn⟩
  | getInsiderTrades t => exact ⟨hp, hf, hi, hn⟩
  | getCompanyNews t => exact ⟨hp, hf, hi, hn⟩
  | getLineItems t f e p => exact ⟨hp, hf, hi, hn⟩
  | setPrices t d =>
    obtain ⟨hdc, hdn⟩ := hop
    cases hm : mergeData (assocGet s.1.pricesCache t) d "time" with
    | error e =>
      simp only [step, applyOp, Cache.set_prices, hm]
      exact ⟨hp, hf, hi, hn⟩
    | ok merged =>
      simp only [step, applyOp, Cache.set_prices, hm]
      exact ⟨collOk_set hp hdc hdn hm, hf, hi, hn⟩
  | setFinancialMetrics t d =>
    obtain ⟨hdc, hdn⟩ := hop
    cases hm : mergeData (assocGet s.1.financialMetricsCache t) d "report_period" with
    | error e =>
      simp only [step, applyOp, Cache.set_financial_metrics, hm]
      exact ⟨hp, hf, hi, hn⟩
    | ok merged =>
      simp only [step, applyOp, Cache.set_financial_metrics, hm]
      exact ⟨hp, collOk_set hf hdc hdn hm, hi, hn⟩
  | setInsiderTrades t d =>
    obtain ⟨hdc, hdn⟩ := hop
    cases hm : mergeData (assocGet s.1.insiderTradesCache t) d "filing_date" with
    | error e =>
      simp only [step, applyOp, Cache.set_insider_trades, hm]
      exact ⟨hp, hf, hi, hn⟩
    | ok merged =>
      simp only [step, applyOp, Cache.set_insider_trades, hm]
      exact ⟨hp, hf, collOk_set hi hdc hdn hm, hn⟩
  | setCompanyNews t d =>
    obtain ⟨hdc, hdn⟩ := hop
    cases hm : mergeData (assocGet s.1.companyNewsCache t) d "date" with
    | error e =>
      simp only [step, applyOp, Cache.set_company_news, hm]
      exact ⟨hp, hf, hi, hn⟩
    | ok merged =>
      simp only [step, applyOp, Cache.set_company_news, hm]
      exact ⟨hp, hf, hi, collOk_set hn hdc hdn hm⟩
  | setLineItems t f e p d =>
    exact ⟨hp, hf, hi, hn⟩

theorem cacheOk_fresh : cacheOk freshState.1 := by
  refine ⟨fun t => ?_, fun t => ?_, fun t => ?_, fun t => ?_⟩ <;>
    exact ⟨List.nodup_nil, fun r hr => absurd hr (List.not_mem_nil r)⟩

theorem run_cacheOk {s : Cache × FS} {ops : List Op} (hs : cacheOk s.1)
    (h : ∀ op ∈ ops, batchOk op) : cacheOk (run s ops).1 := by
  induction ops generalizing s with
  | nil => exact hs
  | cons op rest ih =>
    exact ih (step_cacheOk hs (h op (List.mem_cons_self op rest)))
      (fun o ho => h o (List.mem_cons_of_mem op ho))

/-! ## C1: identity uniqueness -/

/-- C1 counterexample: a single `set_prices` call on a fresh cache whose
batch repeats an identity value stores two records with the same value of
the identity field, so uniqueness after an arbitrary sequence of `set_*`
calls fails as stated. -/
theorem identity_uniqueness_counterexample :
    ¬ keysNodup
        ((assocGet (run freshState
              [Op.setPrices "AAPL" [[("time", "t1")], [("time", "t1")]]]).1.pricesCache
            "AAPL").getD []) "time" := by
  decide

/-- C1 (amended): after any sequence of operations from a fresh cache in
which every merging write's batch carries its collection's identity field
and is itself duplicate-free on it, no stored collection with an identity
field holds two records sharing an identity-field value. -/
theorem identity_uniqueness_of_nodup_batches (ops : List Op)
    (h : ∀ op ∈ ops, batchOk op) (t : String) :
    keysNodup ((assocGet (run freshState ops).1.pricesCache t).getD []) "time" ∧
      keysNodup ((assocGet (run freshState ops).1.financialMetricsCache t).getD [])
        "report_period" ∧
      keysNodup ((assocGet (run freshState ops).1.insiderTradesCache t).getD [])
        "filing_date" ∧
      keysNodup ((assocGet (run freshState ops).1.companyNewsCache t).getD []) "date" := by
  have hok := run_cacheOk cacheOk_fresh h
  exact ⟨(hok.1 t).1, (hok.2.1 t).1, (hok.2.2.1 t).1, (hok.2.2.2 t).1⟩

/-- Witness for the amended C1 at a concrete two-write run. -/
theorem identity_uniqueness_of_nodup_batches_witness :
    (∀ op ∈ [Op.setPrices "AAPL" [[("time", "t1")], [("time", "t2")]],
        Op.setPrices "AAPL" [[("time", "t2")], [("time", "t3")]]], batchOk op) ∧
      (keysNodup ((assocGet (run freshState
            [Op.setPrices "AAPL" [[("time", "t1")], [("time", "t2")]],
              Op.setPrices "AAPL" [[("time", "t2")], [("time", "t3")]]]).1.pricesCache
          "AAPL").getD []) "time" ∧
        keysNodup ((assocGet (run freshState
            [Op.setPrices "AAPL" [[("time", "t1")], [("time", "t2")]],
              Op.setPrices "AAPL" [[("time", "t2")], [("time", "t3")]]]).1.financialMetricsCache
          "AAPL").getD []) "report_period" ∧
        keysNodup ((assocGet (run freshState
            [Op.setPrices "AAPL" [[("time", "t1")], [("time", "t2")]],
              Op.setPrices "AAPL" [[("time", "t2")], [("time", "t3")]]]).1.insiderTradesCache
          "AAPL").getD []) "filing_date" ∧
        keysNodup ((assocGet (run freshState
            [Op.setPrices "AAPL" [[("time", "t1")], [("time", "t2")]],
              Op.setPrices "AAPL" [[("time", "t2")], [("time", "t3")]]]).1.companyNewsCache
          "AAPL").getD []) "date") :=
  ⟨by decide, identity_uniqueness_of_nodup_batches _ (by decide) "AAPL"⟩

/-! ## Read-stability frame lemmas -/

theorem step_pricesCache_get (s : Cache × FS) (op : Op) (t : String)
    (hop : opSetsPrices t op = false) :
    assocGet (step s op).1.pricesCache t = assocGet s.1.pricesCache t := by
  cases op with
  | getPrices t' => rfl
  | getFinancialMetrics t' => rfl
  | getInsiderTrades t' => rfl
  | getCompanyNews t' => rfl
  | getLineItems t' f e p => rfl
  | setPrices t' d =>
    have ht : t ≠ t' := by
      simp only [opSetsPrices, beq_eq_false_iff_ne] at hop
      exact Ne.symm hop
    cases hm : mergeData (assocGet s.1.pricesCache t') d "time" with
    | error e => simp [step, applyOp, Cache.set_prices, hm]
    | ok merged =>
      simp only [step, applyOp, Cache.set_prices, hm]
      exact assocGet_assocSet_ne _ _ _ _ ht
  | setFinancialMetrics t' d =>
    cases hm : mergeData (assocGet s.1.financialMetricsCache t') d "report_period" with
    | error e => simp [step, applyOp, Cache.set_financial_metrics, hm]
    | ok merged => simp [step, applyOp, Cache.set_financial_metrics, hm]
  | setInsiderTrades t' d =>
    cases hm : mergeData (assocGet s.1.insiderTradesCache t') d "filing_date" with
    | error e => simp [step, applyOp, Cache.set_insider_trades, hm]
    | ok merged => simp [step, applyOp, Cache.set_insider_trades, hm]
  | setCompanyNews t' d =>
    cases hm : mergeData (assocGet s.1.companyNewsCache t') d "date" with
    | error e => simp [step, applyOp, Cache.set_company_news, hm]
    | ok merged => simp [step, applyOp, Cache.set_company_news, hm]
  | setLineItems t' f e p d => simp [step, applyOp, Cache.set_line_items]

theorem step_financialMetricsCache_get (s : Cache × FS) (op : Op) (t : String)
    (hop : opSetsFinancialMetrics t op = false) :
    assocGet (step s op).1.financialMetricsCache t =
      assocGet s.1.financialMetricsCache t := by
  cases op with
  | getPrices t' => rfl
  | getFinancialMetrics t' => rfl
  | getInsiderTrades t' => rfl
  | getCompanyNews t' => rfl
  | getLineItems t' f e p => rfl
  | setPrices t' d =>
    cases hm : mergeData (assocGet s.1.pricesCache t') d "time" with
    | error e => simp [step, applyOp, Cache.set_prices, hm]
    | ok merged => simp [step, applyOp, Cache.set_prices, hm]
  | setFinancialMetrics t' d =>
    have ht : t ≠ t' := by
      simp only [opSetsFinancialMetrics, beq_eq_false_iff_ne] at hop
      exact Ne.symm hop
    cases hm : mergeData (assocGet s.1.financialMetricsCache t') d "report_period" with
    | error e => simp [step, applyOp, Cache.set_financial_metrics, hm]
    | ok merged =>
      simp only [step, applyOp, Cache.set_financial_metrics, hm]
      exact assocGet_assocSet_ne _ _ _ _ ht
  | setInsiderTrades t' d =>
    cases hm : mergeData (assocGet s.1.insiderTradesCache t') d "filing_date" with
    | error e => simp [step, applyOp, Cache.set_insider_trades, hm]
    | ok merged => simp [step, applyOp, Cache.set_insider_trades, hm]
  | setCompanyNews t' d =>
    cases hm : mergeData (assocGet s.1.companyNewsCache t') d "date" with
    | error e => simp [step, applyOp, Cache.set_company_news, hm]
    | ok merged => simp [step, applyOp, Cache.set_company_news, hm]
  | setLineItems t' f e p d => simp [step, applyOp, Cache.set_line_items]

theorem step_insiderTradesCache_get (s : Cache × FS) (op : Op) (t : String)
    (hop : opSetsInsiderTrades t op = false) :
    assocGet (step s op).1.insiderTradesCache t =
      assocGet s.1.insiderTradesCache t := by
  cases op with
  | getPrices t' => rfl
  | getFinancialMetrics t' => rfl
  | getInsiderTrades t' => rfl
  | getCompanyNews t' => rfl
  | getLineItems t' f e p => rfl
  | setPrices t' d =>
    cases hm : mergeData (assocGet s.1.pricesCache t') d "time" with
    | error e => simp [step, applyOp, Cache.set_prices, hm]
    | ok merged => simp [step, applyOp, Cache.set_prices, hm]
  | setFinancialMetrics t' d =>
    cases hm : mergeData (assocGet s.1.financialMetricsCache t') d "report_period" with
    | error e => simp [step, applyOp, Cache.set_financial_metrics, hm]
    | ok merged => simp [step, applyOp, Cache.set_financial_metrics, hm]
  | setInsiderTrades t' d =>
    have ht : t ≠ t' := by
      simp only [opSetsInsiderTrades, beq_eq_false_iff_ne] at hop
      exact Ne.symm hop
    cases hm : mergeData (assocGet s.1.insiderTradesCache t') d "filing_date" with
    | error e => simp [step, applyOp, Cache.set_insider_trades, hm]
    | ok merged =>
      simp only [step, applyOp, Cache.set_insider_trades, hm]
      exact assocGet_assocSet_ne _ _ _ _ ht
  | setCompanyNews t' d =>
    cases hm : mergeData (assocGet s.1.companyNewsCache t') d "date" with
    | error e => simp [step, applyOp, Cache.set_company_news, hm]
    | ok merged => simp [step, applyOp, Cache.set_company_news, hm]
  | setLineItems t' f e p d => simp [step, applyOp, Cache.set_line_items]

theorem step_companyNewsCache_get (s : Cache × FS) (op : Op) (t : String)
    (hop : opSetsCompanyNews t op = false) :
    assocGet (step s op).1.companyNewsCache t =
      assocGet s.1.companyNewsCache t := by
  cases op with
  | getPrices t' => rfl
  | getFinancialMetrics t' => rfl
  | getInsiderTrades t' => rfl
  | getCompanyNews t' => rfl
  | getLineItems t' f e p => rfl
  | setPrices t' d =>
    cases hm : mergeData (assocGet s.1.pricesCache t') d "time" with
    | error e => simp [step, applyOp, Cache.set_prices, hm]
    | ok merged => simp [step, applyOp, Cache.set_prices, hm]
  | setFinancialMetrics t' d =>
    cases hm : mergeData (assocGet s.1.financialMetricsCache t') d "report_period" with
    | error e => simp [step, applyOp, Cache.set_financial_metrics, hm]
    | ok merged => simp [step, applyOp, Cache.set_financial_metrics, hm]
  | setInsiderTrades t' d =>
    cases hm : mergeData (assocGet s.1.insiderTradesCache t') d "filing_date" with
    | error e => simp [step, applyOp, Cache.set_insider_trades, hm]
    | ok merged => simp [step, applyOp, Cache.set_insider_trades, hm]
  | setCompanyNews t' d =>
    have ht : t ≠ t' := by
      simp only [opSetsCompanyNews, beq_eq_false_iff_ne] at hop
      exact Ne.symm hop
    cases hm : mergeData (assocGet s.1.companyNewsCache t') d "date" with
    | error e => simp [step, applyOp, Cache.set_company_news, hm]
    | ok merged =>
      simp only [step, applyOp, Cache.set_company_news, hm]
      exact assocGet_assocSet_ne _ _ _ _ ht
  | setLineItems t' f e p d => simp [step, applyOp, Cache.set_line_items]

theorem step_lineItemsCache_get (s : Cache × FS) (op : Op) (t : String)
    (hop : opSetsLineItems t op = false) :
    assocGet (step s op).1.lineItemsCache t = assocGet s.1.lineItemsCache t := by
  cases op with
  | getPrices t' => rfl
  | getFinancialMetrics t' => rfl
  | getInsiderTrades t' => rfl
  | getCompanyNews t' => rfl
  | getLineItems t' f e p => rfl
  | setPrices t' d =>
    cases hm : mergeData (assocGet s.1.pricesCache t') d "time" with
    | error e => simp [step, applyOp, Cache.set_prices, hm]
    | ok merged => simp [step, applyOp, Cache.set_prices, hm]
  | setFinancialMetrics t' d =>
    cases hm : mergeData (assocGet s.1.financialMetricsCache t') d "report_period" with
    | error e => simp [step, applyOp, Cache.set_financial_metrics, hm]
    | ok merged => simp [step, applyOp, Cache.set_financial_metrics, hm]
  | setInsiderTrades t' d =>
    cases hm : mergeData (assocGet s.1.insiderTradesCache t') d "filing_date" with
    | error e => simp [step, applyOp, Cache.set_insider_trades, hm]
    | ok merged => simp [step, applyOp, Cache.set_insider_trades, hm]
  | setCompanyNews t' d =>
    cases hm : mergeData (assocGet s.1.companyNewsCache t') d "date" with
    | error e => simp [step, applyOp, Cache.set_company_news, hm]
    | ok merged => simp [step, applyOp, Cache.set_company_news, hm]
  | setLineItems t' f e p d =>
    have ht : t ≠ t' := by
      simp only [opSetsLineItems, beq_eq_false_iff_ne] at hop
      exact Ne.symm hop
    simp only [step, applyOp, Cache.set_line_items]
    exact assocGet_assocSet_ne _ _ _ _ ht

theorem run_pricesCache_get {s : Cache × FS} {ops : List Op} {t : String}
    (h : ∀ op ∈ ops, opSetsPrices t op = false) :
    assocGet (run s ops).1.pricesCache t = assocGet s.1.pricesCache t := by
  induction ops generalizing s with
  | nil => rfl
  | cons op rest ih =>
    rw [show run s (op :: rest) = run (step s op) rest from rfl,
      ih (fun o ho => h o (List.mem_cons_of_mem op ho)),
      step_pricesCache_get s op t (h op (List.mem_cons_self op rest))]

theorem run_financialMetricsCache_get {s : Cache × FS} {ops : List Op} {t : String}
    (h : ∀ op ∈ ops, opSetsFinancialMetrics t op = false) :
    assocGet (run s ops).1.financialMetricsCache t =
      assocGet s.1.financialMetricsCache t := by
  induction ops generalizing s with
  | nil => rfl
  | cons op rest ih =>
    rw [show run s (op :: rest) = run (step s op) rest from rfl,
      ih (fun o ho => h o (List.mem_cons_of_mem op ho)),
      step_financialMetricsCache_get s op t (h op (List.mem_cons_self op rest))]

theorem run_insiderTradesCache_get {s : Cache × FS} {ops : List Op} {t : String}
    (h : ∀ op ∈ ops, opSetsInsiderTrades t op = false) :
    assocGet (run s ops).1.insiderTradesCache t =
      assocGet s.1.insiderTradesCache t := by
  induction ops generalizing s with
  | nil => rfl
  | cons op rest ih =>
    rw [show run s (op :: rest) = run (step s op) rest from rfl,
      ih (fun o ho => h o (List.mem_cons_of_mem op ho)),
      step_insiderTradesCache_get s op t (h op (List.mem_cons_self op rest))]

theorem run_companyNewsCache_get {s : Cache × FS} {ops : List Op} {t : String}
    (h : ∀ op ∈ ops, opSetsCompanyNews t op = false) :
    assocGet (run s ops).1.companyNewsCache t =
      assocGet s.1.companyNewsCache t := by
  induction ops generalizing s with
  | nil => rfl
  | cons op rest ih =>
    rw [show run s (op :: rest) = run (step s op) rest from rfl,
      ih (fun o ho => h o (List.mem_cons_of_mem op ho)),
      step_companyNewsCache_get s op t (h op (List.mem_cons_self op rest))]

theorem run_lineItemsCache_get {s : Cache × FS} {ops : List Op} {t : String}
    (h : ∀ op ∈ ops, opSetsLineItems t op = false) :
    assocGet (run s ops).1.lineItemsCache t = assocGet s.1.lineItemsCache t := by
  induction ops generalizing s with
  | nil => rfl
  | cons op rest ih =>
    rw [show run s (op :: rest) = run (step s op) rest from rfl,
      ih (fun o ho => h o (List.mem_cons_of_mem op ho)),
      step_lineItemsCache_get s op t (h op (List.mem_cons_self op rest))]

/-! ## C7: absent signal for never-written tickers -/

/-- C7: starting from a fresh cache, a ticker for which no `set_*` call on
the corresponding collection has occurred reads back as `none` (the explicit
absent signal), never as an empty sequence. -/
theorem get_absent_when_never_written (ops : List Op) (t : String) :
    ((∀ op ∈ ops, opSetsPrices t op = false) →
      Cache.get_prices (run freshState ops).1 t = none) ∧
    ((∀ op ∈ ops, opSetsFinancialMetrics t op = false) →
      Cache.get_financial_metrics (run freshState ops).1 t = none) ∧
    ((∀ op ∈ ops, opSetsInsiderTrades t op = false) →
      Cache.get_insider_trades (run freshState ops).1 t = none) ∧
    ((∀ op ∈ ops, opSetsCompanyNews t op = false) →
      Cache.get_company_news (run freshState ops).1 t = none) ∧
    ((∀ op ∈ ops, opSetsLineItems t op = false) →
      ∀ fields endDate period,
        Cache.get_line_items (run freshState ops).1 t fields endDate period = none) := by
  refine ⟨fun h => ?_, fun h => ?_, fun h => ?_, fun h => ?_, fun h => ?_⟩
  · unfold Cache.get_prices
    rw [run_pricesCache_get h]
    rfl
  · unfold Cache.get_financial_metrics
    rw [run_financialMetricsCache_get h]
    rfl
  · unfold Cache.get_insider_trades
    rw [run_insiderTradesCache_get h]
    rfl
  · unfold Cache.get_company_news
    rw [run_companyNewsCache_get h]
    rfl
  · intro fields endDate period
    unfold Cache.get_line_items
    rw [run_lineItemsCache_get h]
    rfl

/-- Witness for C7: a fresh cache written only for `"AAPL"` reads back
absent for `"MSFT"`. -/
theorem get_absent_when_never_written_witness :
    (∀ op ∈ [Op.setPrices "AAPL" [[("time", "t1")]]], opSetsPrices "MSFT" op = false) ∧
      (∀ op ∈ [Op.setPrices "AAPL" [[("time", "t1")]]],
        opSetsFinancialMetrics "MSFT" op = false) ∧
      (∀ op ∈ [Op.setPrices "AAPL" [[("time", "t1")]]],
        opSetsInsiderTrades "MSFT" op = false) ∧
      (∀ op ∈ [Op.setPrices "AAPL" [[("time", "t1")]]],
        opSetsCompanyNews "MSFT" op = false) ∧
      (∀ op ∈ [Op.setPrices "AAPL" [[("time", "t1")]]],
        opSetsLineItems "MSFT" op = false) ∧
      Cache.get_prices
        (run freshState [Op.setPrices "AAPL" [[("time", "t1")]]]).1 "MSFT" = none :=
  ⟨by decide, by decide, by decide, by decide, by decide,
    (get_absent_when_never_written [Op.setPrices "AAPL" [[("time", "t1")]]] "MSFT").1
      (by decide)⟩

/-! ## Directory-creation lemmas -/

theorem mergeData_ok_of_carries {existing : Option (List Record)} {d : List Record}
    {k : String} (hex : carries (existing.getD []) k) (hd : carries d k) :
    ∃ merged, mergeData existing d k = Except.ok merged ∧ carries merged k := by
  cases existing with
  | none => exact ⟨d, rfl, hd⟩
  | some ex =>
    simp only [Option.getD_some] at hex
    exact ⟨ex ++ admittedRecords ex d k, mergeData_eq hex hd,
      carries_append_admitted hex hd⟩

theorem collCarries_set {m : List (String × List Record)} {k t : String}
    {merged : List Record} (hm : ∀ t', carries ((assocGet m t').getD []) k)
    (hc : carries merged k) :
    ∀ t', carries ((assocGet (assocSet m t merged) t').getD []) k := by
  intro t'
  by_cases ht : t' = t
  · subst ht
    rw [assocGet_assocSet_self]
    simpa using hc
  · rw [assocGet_assocSet_ne _ _ _ _ ht]
    exact hm t'

theorem step_cacheCarries {s : Cache × FS} {op : Op} (hs : cacheCarries s.1)
    (hop : opCarries op) : cacheCarries (step s op).1 := by
  obtain ⟨hp, hf, hi, hn⟩ := hs
  cases op with
  | getPrices t => exact ⟨hp, hf, hi, hn⟩
  | getFinancialMetrics t => exact ⟨hp, hf, hi, hn⟩
  | getInsiderTrades t => exact ⟨hp, hf, hi, hn⟩
  | getCompanyNews t => exact ⟨hp, hf, hi, hn⟩
  | getLineItems t f e p => exact ⟨hp, hf, hi, hn⟩
  | setPrices t d =>
    obtain ⟨merged, hm, hc⟩ := mergeData_ok_of_carries (hp t) hop
    simp only [step, applyOp, Cache.set_prices, hm]
    exact ⟨collCarries_set hp hc, hf, hi, hn⟩
  | setFinancialMetrics t d =>
    obtain ⟨merged, hm, hc⟩ := mergeData_ok_of_carries (hf t) hop
    simp only [step, applyOp, Cache.set_financial_metrics, hm]
    exact ⟨hp, collCarries_set hf hc, hi, hn⟩
  | setInsiderTrades t d =>
    obtain ⟨merged, hm, hc⟩ := mergeData_ok_of_carries (hi t) hop
    simp only [step, applyOp, Cache.set_insider_trades, hm]
    exact ⟨hp, hf, collCarries_set hi hc, hn⟩
  | setCompanyNews t d =>
    obtain ⟨merged, hm, hc⟩ := mergeData_ok_of_carries (hn t) hop
    simp only [step, applyOp, Cache.set_company_news, hm]
    exact ⟨hp, hf, hi, collCarries_set hn hc⟩
  | setLineItems t f e p d => exact ⟨hp, hf, hi, hn⟩

theorem cacheCarries_fresh : cacheCarries freshState.1 := by
  refine ⟨fun t => ?_, fun t => ?_, fun t => ?_, fun t => ?_⟩ <;>
    exact fun r hr => absurd hr (List.not_mem_nil r)

theorem contains_ensure (dirs : List String) (t t' : String) :
    ((if dirs.contains t' then dirs else dirs ++ [t']).contains t) =
      (dirs.contains t || (t' == t)) := by
  by_cases ht : t' = t
  · subst ht
    by_cases h : dirs.contains t' = true
    · rw [if_pos h, h]
      simp
    · rw [if_neg h]
      simp [List.mem_append]
  · by_cases h : dirs.contains t' = true
    · rw [if_pos h]
      simp [beq_iff_eq, ht]
    · rw [if_neg h]
      simp [List.mem_append, beq_iff_eq, ht, Ne.symm ht]

theorem step_tickerDirs {s : Cache × FS} {op : Op} (hs : cacheCarries s.1)
    (hop : opCarries op) (t : String) :
    (step s op).2.tickerDirs.contains t =
      (s.2.tickerDirs.contains t || Op.setsTicker t op) := by
  cases op with
  | getPrices t' => simp [step, applyOp, Op.setsTicker]
  | getFinancialMetrics t' => simp [step, applyOp, Op.setsTicker]
  | getInsiderTrades t' => simp [step, applyOp, Op.setsTicker]
  | getCompanyNews t' => simp [step, applyOp, Op.setsTicker]
  | getLineItems t' f e p => simp [step, applyOp, Op.setsTicker]
  | setPrices t' d =>
    obtain ⟨merged, hm, _⟩ := mergeData_ok_of_carries (hs.1 t') hop
    simp only [step, applyOp, Cache.set_prices, hm, Op.setsTicker]
    exact contains_ensure s.2.tickerDirs t t'
  | setFinancialMetrics t' d =>
    obtain ⟨merged, hm, _⟩ := mergeData_ok_of_carries (hs.2.1 t') hop
    simp only [step, applyOp, Cache.set_financial_metrics, hm, Op.setsTicker]
    exact contains_ensure s.2.tickerDirs t t'
  | setInsiderTrades t' d =>
    obtain ⟨merged, hm, _⟩ := mergeData_ok_of_carries (hs.2.2.1 t') hop
    simp only [step, applyOp, Cache.set_insider_trades, hm, Op.setsTicker]
    exact contains_ensure s.2.tickerDirs t t'
  | setCompanyNews t' d =>
    obtain ⟨merged, hm, _⟩ := mergeData_ok_of_carries (hs.2.2.2 t') hop
    simp only [step, applyOp, Cache.set_company_news, hm, Op.setsTicker]
    exact contains_ensure s.2.tickerDirs t t'
  | setLineItems t' f e p d =>
    simp only [step, applyOp, Cache.set_line_items, Op.setsTicker]
    exact contains_ensure s.2.tickerDirs t t'

theorem run_tickerDirs {s : Cache × FS} {ops : List Op}
    (hs : cacheCarries s.1) (h : ∀ op ∈ ops, opCarries op) (t : String) :
    (run s ops).2.tickerDirs.contains t =
      (s.2.tickerDirs.contains t || ops.any (Op.setsTicker t)) := by
  induction ops generalizing s with
  | nil => simp [run]
  | cons op rest ih =>
    rw [show run s (op :: rest) = run (step s op) rest from rfl,
      ih (step_cacheCarries hs (h op (List.mem_cons_self op rest)))
        (fun o ho => h o (List.mem_cons_of_mem op ho)),
      step_tickerDirs hs (h op (List.mem_cons_self op rest)) t]
    simp [Bool.or_assoc]

/-! ## C9: directory creation -/

/-- C9 counterexample: constructing the cache over a filesystem with no base
directory creates the base directory during `_load_cache`, before any write,
contradicting the claim that no directory is created at construction. -/
theorem lazy_directory_creation_counterexample :
    freshFS.baseDirExists = false ∧ (Cache.init freshFS).2.baseDirExists = true := by
  decide

/-- C9 (amended): per-ticker directories are created lazily, exactly by the
first `set_*` touching the ticker: after any sequence of operations on a
fresh cache whose write batches carry their identity fields, ticker `t`'s
directory exists iff some write targeted `t` — in particular `get_*`-only
runs create no ticker directory.  The base directory, however, already
exists right after construction. -/
theorem ticker_dirs_created_on_first_write (ops : List Op) (t : String)
    (h : ∀ op ∈ ops, opCarries op) :
    (run freshState ops).2.tickerDirs.contains t = ops.any (Op.setsTicker t) ∧
      freshState.2.baseDirExists = true := by
  constructor
  · have hrun := run_tickerDirs cacheCarries_fresh h t
    have h0 : freshState.2.tickerDirs.contains t = false := rfl
    rw [hrun, h0, Bool.false_or]
  · rfl

/-- Witness for the amended C9: a get-only prefix creates no directory; the
write to `"AAPL"` creates exactly its directory. -/
theorem ticker_dirs_created_on_first_write_witness :
    (∀ op ∈ [Op.getPrices "AAPL", Op.setPrices "AAPL" [[("time", "t1")]]],
        opCarries op) ∧
      ((run freshState
            [Op.getPrices "AAPL", Op.setPrices "AAPL" [[("time", "t1")]]]).2.tickerDirs.contains
          "AAPL" =
        List.any [Op.getPrices "AAPL", Op.setPrices "AAPL" [[("time", "t1")]]]
          (Op.setsTicker "AAPL") ∧
        freshState.2.baseDirExists = true) :=
  ⟨by decide,
    ticker_dirs_created_on_first_write
      [Op.getPrices "AAPL", Op.setPrices "AAPL" [[("time", "t1")]]] "AAPL" (by decide)⟩

/-! ## C6: the composite query key -/

theorem charLt_asymm {a b : Char} (h : charLt a b = true) : charLt b a = false := by
  simp only [charLt, decide_eq_true_eq] at h
  simp only [charLt, decide_eq_false_iff_not, not_lt]
  omega

theorem charLt_trans {a b c : Char} (h1 : charLt a b = true)
    (h2 : charLt b c = true) : charLt a c = true := by
  simp only [charLt, decide_eq_true_eq] at h1 h2 ⊢
  omega

theorem charLt_eq {a b : Char} (h1 : ¬charLt a b = true) (h2 : ¬charLt b a = true) :
    a = b := by
  simp only [charLt, decide_eq_true_eq, not_lt] at h1 h2
  exact Char.eq_of_val_eq (UInt32.ext (le_antisymm h2 h1))

theorem lexLe_total : ∀ as bs : List Char, lexLe as bs = true ∨ lexLe bs as = true := by
  intro as
  induction as with
  | nil => intro bs; left; rfl
  | cons a as ih =>
    intro bs
    cases bs with
    | nil => right; rfl
    | cons b bs =>
      by_cases hab : charLt a b = true
      · left; simp [lexLe, hab]
      · by_cases hba : charLt b a = true
        · right; simp [lexLe, hba]
        · rcases ih bs with h | h
          · left; simp [lexLe, hab, hba, h]
          · right; simp [lexLe, hab, hba, h]

theorem lexLe_trans : ∀ as bs cs : List Char,
    lexLe as bs = true → lexLe bs cs = true → lexLe as cs = true := by
  intro as
  induction as with
  | nil => intro bs cs _ _; rfl
  | cons a as ih =>
    intro bs cs h1 h2
    cases bs with
    | nil => simp [lexLe] at h1
    | cons b bs =>
      cases cs with
      | nil => simp [lexLe] at h2
      | cons c cs =>
        by_cases hbc : charLt b c = true
        · by_cases hab : charLt a b = true
          · simp [lexLe, charLt_trans hab hbc]
          · by_cases hba : charLt b a = true
            · simp [lexLe, hab, hba] at h1
            · have hq : a = b := charLt_eq hab hba
              subst hq
              simp [lexLe, hbc]
        · by_cases hcb : charLt c b = true
          · simp [lexLe, hbc, hcb] at h2
          · have hq : b = c := charLt_eq hbc hcb
            subst hq
            by_cases hab : charLt a b = true
            · simp [lexLe, hab]
            · by_cases hba : charLt b a = true
              · simp [lexLe, hab, hba] at h1
              · have h1t : lexLe as bs = true := by
                  simpa [lexLe, hab, hba] using h1
                have hbb : charLt b b = false := by
                  simp [charLt]
                have h2t : lexLe bs cs = true := by
                  simpa [lexLe, hbb] using h2
                simp [lexLe, hab, hba, ih bs cs h1t h2t]

theorem lexLe_antisymm : ∀ as bs : List Char,
    lexLe as bs = true → lexLe bs as = true → as = bs := by
  intro as
  induction as with
  | nil =>
    intro bs _ h2
    cases bs with
    | nil => rfl
    | cons b bs => simp [lexLe] at h2
  | cons a as ih =>
    intro bs h1 h2
    cases bs with
    | nil => simp [lexLe] at h1
    | cons b bs =>
      by_cases hab : charLt a b = true
      · simp [lexLe, charLt_asymm hab, hab] at h2
      · by_cases hba : charLt b a = true
        · simp [lexLe, hab, hba] at h1
        · have hq : a = b := charLt_eq hab hba
          subst hq
          have h1t : lexLe as bs = true := by simpa [lexLe, hab] using h1
          have h2t : lexLe bs as = true := by simpa [lexLe, hab] using h2
          rw [ih bs h1t h2t]

theorem strLe_total : ∀ a b : String, strLe a b = true ∨ strLe b a = true :=
  fun a b => lexLe_total a.data b.data

theorem strLe_trans {a b c : String} (h1 : strLe a b = true)
    (h2 : strLe b c = true) : strLe a c = true :=
  lexLe_trans _ _ _ h1 h2

theorem strLe_antisymm {a b : String} (h1 : strLe a b = true)
    (h2 : strLe b a = true) : a = b := by
  apply congrArg String.mk
  exact lexLe_antisymm _ _ h1 h2

theorem pySorted_perm {f f' : List String} (h : f.Perm f') :
    pySorted f = pySorted f' := by
  have itot : IsTotal String (fun a b => strLe a b = true) := ⟨strLe_total⟩
  have itrans : IsTrans String (fun a b => strLe a b = true) :=
    ⟨fun _ _ _ => strLe_trans⟩
  have ianti : IsAntisymm String (fun a b => strLe a b = true) :=
    ⟨fun _ _ => strLe_antisymm⟩
  exact @List.eq_of_perm_of_sorted _ _ ianti _ _
    (((List.perm_insertionSort _ f).trans h).trans (List.perm_insertionSort _ f').symm)
    (@List.sorted_insertionSort _ _ _ itot itrans f)
    (@List.sorted_insertionSort _ _ _ itot itrans f')

theorem queryKey_perm {f f' : List String} (h : f.Perm f') (e p : String) :
    queryKey f e p = queryKey f' e p := by
  unfold queryKey
  rw [pySorted_perm h]

/-- C6 counterexample: two `set_line_items` calls with different
(end_date, period) pairs — ("a_b", "c") and ("a", "b_c") — collide on the
same composite key, so calls differing in end date or period do not address
independent entries: the second write overwrites the first. -/
theorem composite_key_counterexample :
    Cache.get_line_items
        (Cache.set_line_items
          (Cache.set_line_items emptyCache freshFS "T" [] "a_b" "c" [[("f", "1")]]).1
          (Cache.set_line_items emptyCache freshFS "T" [] "a_b" "c" [[("f", "1")]]).2
          "T" [] "a" "b_c" [[("f", "2")]]).1
        "T" [] "a_b" "c" = some [[("f", "2")]] := by
  decide

/-- C6 (amended): the composite key depends on the field list only through
its sorted order, so calls whose field lists are permutations of each other
(same end date and period) address the same cached entry, and the concrete
scenario — storing under ["revenue"] then under ["revenue","net_income"]
with the same date and period — leaves both entries independently
retrievable.  (Independence of calls differing in end date or period is not
guaranteed in general: delimiter collisions exist, see the counterexample.) -/
theorem composite_key_permutation (c : Cache) (fs : FS) (t e p : String)
    (f f' : List String) (hperm : f.Perm f') (R1 R2 : List Record) :
    Cache.get_line_items c t f e p = Cache.get_line_items c t f' e p ∧
      (Cache.get_line_items
          (Cache.set_line_items
            (Cache.set_line_items c fs t ["revenue"] "2024-01-01" "ttm" R1).1
            (Cache.set_line_items c fs t ["revenue"] "2024-01-01" "ttm" R1).2
            t ["revenue", "net_income"] "2024-01-01" "ttm" R2).1
          t ["revenue"] "2024-01-01" "ttm" = some R1 ∧
        Cache.get_line_items
          (Cache.set_line_items
            (Cache.set_line_items c fs t ["revenue"] "2024-01-01" "ttm" R1).1
            (Cache.set_line_items c fs t ["revenue"] "2024-01-01" "ttm" R1).2
            t ["revenue", "net_income"] "2024-01-01" "ttm" R2).1
          t ["revenue", "net_income"] "2024-01-01" "ttm" = some R2) := by
  constructor
  · unfold Cache.get_line_items
    rw [queryKey_perm hperm]
  · have hk : queryKey ["revenue"] "2024-01-01" "ttm" ≠
        queryKey ["revenue", "net_income"] "2024-01-01" "ttm" := by decide
    unfold Cache.get_line_items Cache.set_line_items
    simp only [assocGet_assocSet_self, Option.getD_some, assocSet_isEmpty,
      Bool.false_eq_true, if_false]
    refine ⟨?_, trivial⟩
    rw [assocGet_assocSet_ne _ _ _ _ hk, assocGet_assocSet_self]

/-- Witness for the amended C6 at concrete permuted field lists. -/
theorem composite_key_permutation_witness :
    List.Perm ["a", "b"] ["b", "a"] ∧
      (Cache.get_line_items emptyCache "T" ["a", "b"] "E" "P" =
          Cache.get_line_items emptyCache "T" ["b", "a"] "E" "P" ∧
        (Cache.get_line_items
            (Cache.set_line_items
              (Cache.set_line_items emptyCache freshFS "T" ["revenue"] "2024-01-01" "ttm"
                [[("v", "1")]]).1
              (Cache.set_line_items emptyCache freshFS "T" ["revenue"] "2024-01-01" "ttm"
                [[("v", "1")]]).2
              "T" ["revenue", "net_income"] "2024-01-01" "ttm" [[("v", "2")]]).1
            "T" ["revenue"] "2024-01-01" "ttm" = some [[("v", "1")]] ∧
          Cache.get_line_items
            (Cache.set_line_items
              (Cache.set_line_items emptyCache freshFS "T" ["revenue"] "2024-01-01" "ttm"
                [[("v", "1")]]).1
              (Cache.set_line_items emptyCache freshFS "T" ["revenue"] "2024-01-01" "ttm"
                [[("v", "1")]]).2
              "T" ["revenue", "net_income"] "2024-01-01" "ttm" [[("v", "2")]]).1
            "T" ["revenue", "net_income"] "2024-01-01" "ttm" = some [[("v", "2")]])) :=
  ⟨by decide,
    composite_key_permutation emptyCache freshFS "T" "E" "P" ["a", "b"] ["b", "a"]
      (by decide) [[("v", "1")]] [[("v", "2")]]⟩

/-! ## C8: set_line_items replaces verbatim -/

/-- C8: `set_line_items` performs no merge: after the call the entry under
the composite key is exactly the supplied record list, whatever was stored
there before, and every other composite key of that ticker is unchanged. -/
theorem set_line_items_replaces_verbatim (c : Cache) (fs : FS) (t : String)
    (f : List String) (e p : String) (d : List Record) :
    assocGet ((assocGet (Cache.set_line_items c fs t f e p d).1.lineItemsCache t).getD [])
        (queryKey f e p) = some d ∧
      ∀ k', k' ≠ queryKey f e p →
        assocGet
            ((assocGet (Cache.set_line_items c fs t f e p d).1.lineItemsCache t).getD [])
            k' =
          assocGet ((assocGet c.lineItemsCache t).getD []) k' := by
  unfold Cache.set_line_items
  simp only [assocGet_assocSet_self, Option.getD_some]
  exact ⟨trivial, fun k' hk => assocGet_assocSet_ne _ _ _ _ hk⟩

/-- Witness for C8 at a concrete overwrite of a previously stored key. -/
theorem set_line_items_replaces_verbatim_witness :
    assocGet
        ((assocGet (Cache.set_line_items
            (Cache.set_line_items emptyCache freshFS "T" ["revenue"] "E" "ttm"
              [[("v", "0")]]).1
            freshFS "T" ["revenue"] "E" "ttm" [[("v", "1")]]).1.lineItemsCache "T").getD [])
        (queryKey ["revenue"] "E" "ttm") = some [[("v", "1")]] ∧
      ("zzz" ≠ queryKey ["revenue"] "E" "ttm" ∧
        assocGet
            ((assocGet (Cache.set_line_items
                (Cache.set_line_items emptyCache freshFS "T" ["revenue"] "E" "ttm"
                  [[("v", "0")]]).1
                freshFS "T" ["revenue"] "E" "ttm" [[("v", "1")]]).1.lineItemsCache "T").getD [])
            "zzz" =
          assocGet
            ((assocGet (Cache.set_line_items emptyCache freshFS "T" ["revenue"] "E" "ttm"
                [[("v", "0")]]).1.lineItemsCache "T").getD []) "zzz") :=
  ⟨(set_line_items_replaces_verbatim
      (Cache.set_line_items emptyCache freshFS "T" ["revenue"] "E" "ttm" [[("v", "0")]]).1
      freshFS "T" ["revenue"] "E" "ttm" [[("v", "1")]]).1,
    by decide,
    (set_line_items_replaces_verbatim
        (Cache.set_line_items emptyCache freshFS "T" ["revenue"] "E" "ttm" [[("v", "0")]]).1
        freshFS "T" ["revenue"] "E" "ttm" [[("v", "1")]]).2 "zzz" (by decide)⟩

/-! ## C10: malformed-batch atomicity -/

/-- C10: for each merging `set_*`, if the stored collection is non-empty and
some incoming record lacks the identity field, the call raises (a
`KeyError`) and the step leaves the whole state — in-memory caches and
filesystem — unchanged; if instead the stored collection is empty or absent,
the same batch is stored verbatim with no identity-field check. -/
theorem malformed_batch_atomicity (c : Cache) (fs : FS) (t : String) (d : List Record) :
    (((∃ r ∈ d, dictGet r "time" = none) →
        (assocGet c.pricesCache t).getD [] ≠ [] →
        (∃ e, Cache.set_prices c fs t d = Except.error e) ∧
          step (c, fs) (Op.setPrices t d) = (c, fs)) ∧
      ((assocGet c.pricesCache t).getD [] = [] →
        ∃ fs', Cache.set_prices c fs t d =
          Except.ok ({ c with pricesCache := assocSet c.pricesCache t d }, fs'))) ∧
    (((∃ r ∈ d, dictGet r "report_period" = none) →
        (assocGet c.financialMetricsCache t).getD [] ≠ [] →
        (∃ e, Cache.set_financial_metrics c fs t d = Except.error e) ∧
          step (c, fs) (Op.setFinancialMetrics t d) = (c, fs)) ∧
      ((assocGet c.financialMetricsCache t).getD [] = [] →
        ∃ fs', Cache.set_financial_metrics c fs t d =
          Except.ok ({ c with financialMetricsCache := assocSet c.financialMetricsCache t d }, fs'))) ∧
    (((∃ r ∈ d, dictGet r "filing_date" = none) →
        (assocGet c.insiderTradesCache t).getD [] ≠ [] →
        (∃ e, Cache.set_insider_trades c fs t d = Except.error e) ∧
          step (c, fs) (Op.setInsiderTrades t d) = (c, fs)) ∧
      ((assocGet c.insiderTradesCache t).getD [] = [] →
        ∃ fs', Cache.set_insider_trades c fs t d =
          Except.ok ({ c with insiderTradesCache := assocSet c.insiderTradesCache t d }, fs'))) ∧
    (((∃ r ∈ d, dictGet r "date" = none) →
        (assocGet c.companyNewsCache t).getD [] ≠ [] →
        (∃ e, Cache.set_company_news c fs t d = Except.error e) ∧
          step (c, fs) (Op.setCompanyNews t d) = (c, fs)) ∧
      ((assocGet c.companyNewsCache t).getD [] = [] →
        ∃ fs', Cache.set_company_news c fs t d =
          Except.ok ({ c with companyNewsCache := assocSet c.companyNewsCache t d }, fs'))) := by
  refine ⟨⟨?_, ?_⟩, ⟨?_, ?_⟩, ⟨?_, ?_⟩, ⟨?_, ?_⟩⟩
  · intro hmiss hne
    obtain ⟨r, hr, hrm⟩ := hmiss
    cases hget : assocGet c.pricesCache t with
    | none => rw [hget] at hne; exact absurd rfl hne
    | some ex =>
      rw [hget] at hne
      simp only [Option.getD_some] at hne
      obtain ⟨e, he⟩ := mergeData_error hne hr hrm
      have hset : Cache.set_prices c fs t d = Except.error e := by
        unfold Cache.set_prices
        rw [hget, he]
      refine ⟨⟨e, hset⟩, ?_⟩
      simp [step, applyOp, hset]
  · intro hfalsy
    exact ⟨_, by unfold Cache.set_prices; rw [mergeData_falsy hfalsy]⟩
  · intro hmiss hne
    obtain ⟨r, hr, hrm⟩ := hmiss
    cases hget : assocGet c.financialMetricsCache t with
    | none => rw [hget] at hne; exact absurd rfl hne
    | some ex =>
      rw [hget] at hne
      simp only [Option.getD_some] at hne
      obtain ⟨e, he⟩ := mergeData_error hne hr hrm
      have hset : Cache.set_financial_metrics c fs t d = Except.error e := by
        unfold Cache.set_financial_metrics
        rw [hget, he]
      refine ⟨⟨e, hset⟩, ?_⟩
      simp [step, applyOp, hset]
  · intro hfalsy
    exact ⟨_, by unfold Cache.set_financial_metrics; rw [mergeData_falsy hfalsy]⟩
  · intro hmiss hne
    obtain ⟨r, hr, hrm⟩ := hmiss
    cases hget : assocGet c.insiderTradesCache t with
    | none => rw [hget] at hne; exact absurd rfl hne
    | some ex =>
      rw [hget] at hne
      simp only [Option.getD_some] at hne
      obtain ⟨e, he⟩ := mergeData_error hne hr hrm
      have hset : Cache.set_insider_trades c fs t d = Except.error e := by
        unfold Cache.set_insider_trades
        rw [hget, he]
      refine ⟨⟨e, hset⟩, ?_⟩
      simp [step, applyOp, hset]
  · intro hfalsy
    exact ⟨_, by unfold Cache.set_insider_trades; rw [mergeData_falsy hfalsy]⟩
  · intro hmiss hne
    obtain ⟨r, hr, hrm⟩ := hmiss
    cases hget : assocGet c.companyNewsCache t with
    | none => rw [hget] at hne; exact absurd rfl hne
    | some ex =>
      rw [hget] at hne
      simp only [Option.getD_some] at hne
      obtain ⟨e, he⟩ := mergeData_error hne hr hrm
      have hset : Cache.set_company_news c fs t d = Except.error e := by
        unfold Cache.set_company_news
        rw [hget, he]
      refine ⟨⟨e, hset⟩, ?_⟩
      simp [step, applyOp, hset]
  · intro hfalsy
    exact ⟨_, by unfold Cache.set_company_news; rw [mergeData_falsy hfalsy]⟩

/-- Witness for C10: a batch containing a record without the identity field
fails against a non-empty stored prices collection, leaving state unchanged. -/
theorem malformed_batch_atomicity_witness :
    (∃ r ∈ ([[]] : List Record), dictGet r "time" = none) ∧
      (assocGet (Cache.mk [("A", [[("time", "t1")]])] [] [] [] []).pricesCache "A").getD []
        ≠ [] ∧
      ((∃ e, Cache.set_prices (Cache.mk [("A", [[("time", "t1")]])] [] [] [] [])
          freshFS "A" [[]] = Except.error e) ∧
        step ((Cache.mk [("A", [[("time", "t1")]])] [] [] [] []), freshFS)
            (Op.setPrices "A" [[]]) =
          ((Cache.mk [("A", [[("time", "t1")]])] [] [] [] []), freshFS)) :=
  ⟨by decide, by decide,
    (malformed_batch_atomicity (Cache.mk [("A", [[("time", "t1")]])] [] [] [] [])
        freshFS "A" [[]]).1.1 (by decide) (by decide)⟩

end HedgeFundCache
